import Mathlib

/-!
# FileManager metadata accessors (src/filemanager.cpp)

A shallow embedding of the metadata accessors of `FileManager`: the URI-scheme
stripping shared by `deleteImage`, `getPictureMetaData` and `runMkvInfo`, the
EXIF accessors, and the `mkvinfo` report accessors.

A `QString` is embedded as a list of characters.  The Qt string operations the
accessors call (`indexOf`, `remove`, `split`, `contains`, `trimmed`, `section`,
`arg`, `number`) are embedded with the behaviour documented by Qt.  Everything
outside the process (file system, `mkvinfo` subprocess, EXIF decoder, date and
floating point rendering) is an oracle in `World`; every accessor returns its
result together with the list of external calls it made, in order.

A finite `double` is embedded as a sign, a mantissa and a binary exponent; the
quotient in `getExposure` is rounded to the nearest binary64 value, ties to
even, as IEEE 754 division does.  A result that C++ leaves undefined is `none`.
-/

namespace FileManager

/-- A `QString`, as the sequence of its characters. -/
abbrev QString := List Char

/-! ## Qt string primitives -/

/-- `QChar::isSpace`: the ASCII white space characters U+0009..U+000D and
U+0020, then U+0085, U+00A0 and the Unicode separator categories Zs, Zl, Zp. -/
def isSpace (c : Char) : Bool :=
  let u := c.toNat
  u == 0x20 || (0x09 ≤ u && u ≤ 0x0D) || u == 0x85 || u == 0xA0 || u == 0x1680 ||
    (0x2000 ≤ u && u ≤ 0x200A) || u == 0x2028 || u == 0x2029 || u == 0x202F ||
    u == 0x205F || u == 0x3000

/-- `QString::indexOf(QChar)`, searching from position `from`: the index of the
first occurrence, or `-1`. -/
def indexOfFrom (ch : Char) : QString → Nat → Int
  | [], _ => -1
  | c :: cs, i => if c = ch then (i : Int) else indexOfFrom ch cs (i + 1)

/-- `QString::indexOf(QChar)`. -/
def indexOf (s : QString) (ch : Char) : Int := indexOfFrom ch s 0

/-- `QString::remove(int position, int n)` for a non-negative position: the
characters before `position`, then those from `position + n` on. -/
def remove (s : QString) (position n : Nat) : QString :=
  s.take position ++ s.drop (position + n)

/-- `QString::split(QChar)` with the default `Qt::KeepEmptyParts`: the fields
between the separators, empty fields included; never an empty list. -/
def split (sep : Char) : QString → List QString
  | [] => [[]]
  | c :: cs =>
    if c = sep then [] :: split sep cs
    else
      match split sep cs with
      | [] => [[c]]
      | field :: fields => (c :: field) :: fields

/-- `QString::contains(const QString &)`, case sensitive: `needle` starts at
some position of `s`. -/
def contains : QString → QString → Bool
  | [], needle => needle.isPrefixOf []
  | c :: cs, needle => needle.isPrefixOf (c :: cs) || contains cs needle

/-- `QString::trimmed`: white space removed from both ends. -/
def trimmed (s : QString) : QString :=
  ((s.dropWhile isSpace).reverse.dropWhile isSpace).reverse

/-- `QList::last` on the result of `split`, which is never empty. -/
def last (fields : List QString) : QString := fields.getLastD []

/-- `QString::section(QChar sep, int start)` with the default end `-1` and
default flags: the fields from `start` on, joined by the separator again; the
null string when there are not that many fields. -/
def section_ (s : QString) (sep : Char) (start : Nat) : QString :=
  [sep].intercalate ((split sep s).drop start)

/-- `QString::number` of an unsigned or non-negative integer, base 10. -/
def number (n : Nat) : QString := Nat.toDigits 10 n

/-- `QString::number(int)`, base 10. -/
def numberInt (n : Int) : QString :=
  if n < 0 then '-' :: number n.natAbs else number n.natAbs

/-! ### `QString::arg` -/

/-- A piece of a format string as `QString::arg` sees it: a literal character,
or a place marker `%n`, `%nn`, `%Ln` or `%Lnn` with its number and its text. -/
inductive ArgPiece where
  | lit (c : Char)
  | marker (n : Nat) (text : QString)
  deriving DecidableEq, Repr

/-- The value of a digit of a place marker.  Only the ASCII digits are read as
digits, as `qArgDigitValue` of Qt 6 does; Qt 5 asks `QChar::digitValue`, which
agrees on ASCII text. -/
def digitValue (c : Char) : Option Nat :=
  if '0' ≤ c ∧ c ≤ '9' then some (c.toNat - 48) else none

/-- Where the scan of `findArgEscapes` stands: in plain text, right after a
percent sign, after a percent sign and `L`, or after the first digit of a place
marker (with the marker text read so far and the value of that digit). -/
inductive ArgScan where
  | text
  | percent
  | percentL
  | digit (txt : QString) (v : Nat)

/-- The scan of `findArgEscapes`: a percent sign, an optional `L`, then one or
two digits form a place marker; any other percent sign is literal and the scan
resumes at the character that broke the marker. -/
def argScan : ArgScan → QString → List ArgPiece
  | .text, [] => []
  | .percent, [] => [.lit '%']
  | .percentL, [] => [.lit '%', .lit 'L']
  | .digit txt v, [] => [.marker v txt]
  | .text, c :: cs =>
    if c = '%' then argScan .percent cs else .lit c :: argScan .text cs
  | .percent, c :: cs =>
    if c = 'L' then argScan .percentL cs
    else
      match digitValue c with
      | some v => argScan (.digit ['%', c] v) cs
      | none =>
        .lit '%' :: (if c = '%' then argScan .percent cs else .lit c :: argScan .text cs)
  | .percentL, c :: cs =>
    match digitValue c with
    | some v => argScan (.digit ['%', 'L', c] v) cs
    | none =>
      .lit '%' :: .lit 'L' ::
        (if c = '%' then argScan .percent cs else .lit c :: argScan .text cs)
  | .digit txt v, c :: cs =>
    match digitValue c with
    | some v2 => .marker (10 * v + v2) (txt ++ [c]) :: argScan .text cs
    | none =>
      .marker v txt ::
        (if c = '%' then argScan .percent cs else .lit c :: argScan .text cs)

/-- The pieces of a whole format string. -/
def argPieces (s : QString) : List ArgPiece := argScan .text s

/-- The lowest place marker number among the pieces (`min_escape`), if any. -/
def minMarker : List ArgPiece → Option Nat
  | [] => none
  | .lit _ :: ps => minMarker ps
  | .marker n _ :: ps =>
    match minMarker ps with
    | none => some n
    | some m => some (min n m)

/-- The rewrite of `replaceArgEscapes` with field width 0: every marker with the
lowest number becomes the argument, everything else keeps its text. -/
def replacePieces (m : Nat) (a : QString) : List ArgPiece → QString
  | [] => []
  | .lit c :: ps => c :: replacePieces m a ps
  | .marker n text :: ps =>
    (if n = m then a else text) ++ replacePieces m a ps

/-- `QString::arg(const QString &a)`: a copy of the string with every occurrence
of its lowest numbered place marker replaced by `a`; the string itself when it
has no place marker. -/
def arg (s a : QString) : QString :=
  match minMarker (argPieces s) with
  | none => s
  | some m => replacePieces m a (argPieces s)

/-! ## Floating point -/

/-- A finite `double`: the value `mant * 2 ^ exp`, negated when `neg`. -/
structure Double where
  neg : Bool
  mant : Nat
  exp : Int
  deriving DecidableEq, Repr

/-- The `double` of a natural number that needs no rounding. -/
def Double.ofNat (n : Nat) : Double := ⟨false, n, 0⟩

/-- The exact value of a `double`. -/
def Double.toRat (x : Double) : ℚ :=
  (if x.neg then -1 else 1) * (x.mant : ℚ) * (2 : ℚ) ^ x.exp

/-- The position of the leading binary digit of a positive number: the number
of its binary digits less one. -/
def log2 (n : Nat) : Nat := (Nat.toDigits 2 n).length - 1

/-- Rounding of the exact value `n / d * 2 ^ e`, with `n` and `d` positive, to
binary64: to nearest, ties to even, with 53 significant bits, gradual
underflow below `2 ^ -1022`, and `none` (infinity) from `2 ^ 1024` on. -/
def roundNearestEven (neg : Bool) (n d : Nat) (e : Int) : Option Double :=
  let k : Int := (log2 n : Int) - (log2 d : Int)
  let l : Int :=
    if 0 ≤ k then (if d * 2 ^ k.toNat ≤ n then k else k - 1)
    else (if d ≤ n * 2 ^ (-k).toNat then k else k - 1)
  let s : Int := max (l + e - 52) (-1074)
  let sh : Int := e - s
  let num : Nat := if 0 ≤ sh then n * 2 ^ sh.toNat else n
  let den : Nat := if 0 ≤ sh then d else d * 2 ^ (-sh).toNat
  let q := num / den
  let r := num % den
  let m :=
    if 2 * r < den then q
    else if den < 2 * r then q + 1
    else if q % 2 = 0 then q else q + 1
  if 0 ≤ s ∧ 2 ^ 1024 ≤ m * 2 ^ s.toNat then none else some ⟨neg, m, s⟩

/-- The quotient `a / b` of two finite `double`s, IEEE 754 binary64: `none`
when the result is not a finite number (division by zero, overflow). -/
def fdiv (a b : Double) : Option Double :=
  if b.mant = 0 then none
  else if a.mant = 0 then some ⟨xor a.neg b.neg, 0, 0⟩
  else roundNearestEven (xor a.neg b.neg) a.mant b.mant (a.exp - b.exp)

/-- `static_cast<unsigned int>` of a `double`: the fractional part is
discarded; the behaviour is undefined (`none`) when the value is not finite or
the truncated value is not an `unsigned int`. -/
def toUnsignedInt : Option Double → Option Nat
  | none => none
  | some x =>
    let n : Nat :=
      if 0 ≤ x.exp then x.mant * 2 ^ x.exp.toNat else x.mant / 2 ^ (-x.exp).toNat
    if x.neg then (if n = 0 then some 0 else none)
    else if n < 2 ^ 32 then some n else none

/-! ## The world outside the process -/

/-- Modelled from the spec: the record type `easyexif::EXIFInfo` is declared in
`exif.h`, which is not among the sources.  This is the ImageMetadataRecord of
the specification, with the field names that `filemanager.cpp` reads.  The
rational fields are `double`s, the integer fields hold unsigned values,
`Flash` a character code. -/
structure EXIFInfo where
  DateTime : QString
  Make : QString
  Model : QString
  ImageWidth : Nat
  ImageHeight : Nat
  FNumber : Double
  ExposureTime : Double
  ISOSpeedRatings : Nat
  ExposureBiasValue : Double
  FocalLengthIn35mm : Nat
  FocalLength : Double
  Flash : Nat

/-- What the accessors call outside the process. -/
structure World where
  /-- `QFile::exists` of a path. -/
  fileExists : QString → Bool
  /-- `QFile::remove` of a path. -/
  fileRemove : QString → Bool
  /-- `QFile::open(QIODevice::ReadOnly)` of a path. -/
  fileOpen : QString → Bool
  /-- `QFile::readAll` of an opened file: its bytes. -/
  fileContent : QString → List Nat
  /-- `easyexif::EXIFInfo::parseFrom`: the decoded record and the status code. -/
  parseFrom : List Nat → EXIFInfo × Int
  /-- The standard output of `mkvinfo` on a path, converted to a `QString`;
  `none` when `QProcess::waitForFinished` fails. -/
  mkvinfo : QString → Option QString
  /-- `std::get_time` with `%Y:%m:%d %H:%M:%S` followed by `strftime` with
  `%b %d, %Y \n %H:%M`; `none` when the stream fails. -/
  exifDate : QString → Option QString
  /-- `QDateTime::fromString` with `yyyy-MM-dd HH:mm:ss t` followed by
  `toString` with `MMM d, yyyy \n HH:mm`; `none` when the date is not valid. -/
  videoDate : QString → Option QString
  /-- `QString::number` of a value narrowed to `float`. -/
  numberFloat : Double → QString

/-- An external call, with the path or the bytes handed over. -/
inductive Effect where
  | fileExists (path : QString)
  | fileRemove (path : QString)
  | fileOpen (path : QString)
  | fileReadAll (path : QString)
  | exifParse (bytes : List Nat)
  | mkvinfo (path : QString)
  deriving DecidableEq, Repr

/-! ## C++ conversions -/

/-- Conversion of an `unsigned int` to `int` (two's complement, 32 bits). -/
def toInt32 (n : Nat) : Int :=
  if n % 2 ^ 32 < 2 ^ 31 then (n % 2 ^ 32 : Nat) else (n % 2 ^ 32 : Nat) - 2 ^ 32

/-! ## File management -/

/-- `FileManager::deleteImage`. -/
def deleteImage (w : World) (fileUrl : QString) : Bool × List Effect :=
  let path := fileUrl
  let colonIndex := indexOf path ':'
  let path := if colonIndex ≠ -1 then remove path 0 (colonIndex + 1).toNat else path
  if w.fileExists path then
    (w.fileRemove path, [.fileExists path, .fileRemove path])
  else
    (false, [.fileExists path])

/-! ## Picture metadata -/

/-- `FileManager::getCurrentLocation`: its body is empty. -/
def getCurrentLocation : List Effect := []

/-- `FileManager::getPictureMetaData`.  A file that failed to open reads as
empty; the record is returned whatever the status code. -/
def getPictureMetaData (w : World) (fileUrl : QString) : EXIFInfo × List Effect :=
  let path := fileUrl
  let colonIndex := indexOf path ':'
  let path := if colonIndex ≠ -1 then remove path 0 (colonIndex + 1).toNat else path
  let fileContent := if w.fileOpen path then w.fileContent path else []
  let result := (w.parseFrom fileContent).1
  (result, getCurrentLocation ++
    [.fileOpen path, .fileReadAll path, .exifParse fileContent])

/-- `FileManager::getPictureDate`. -/
def getPictureDate (w : World) (fileUrl : QString) : QString × List Effect :=
  if fileUrl = [] then ([], [])
  else
    let (metadata, effects) := getPictureMetaData w fileUrl
    match w.exifDate metadata.DateTime with
    | none => ("Invalid date/time".toList, effects)
    | some formatted => (formatted, effects)

/-- `FileManager::getCameraHardware`. -/
def getCameraHardware (w : World) (fileUrl : QString) : QString × List Effect :=
  if fileUrl = [] then ([], [])
  else
    let (metadata, effects) := getPictureMetaData w fileUrl
    let make := metadata.Make
    let model := metadata.Model
    (arg (arg "%1 %2".toList make) model, effects)

/-- `FileManager::getDimensions`. -/
def getDimensions (w : World) (fileUrl : QString) : QString × List Effect :=
  if fileUrl = [] then ([], [])
  else
    let (metadata, effects) := getPictureMetaData w fileUrl
    let width := toInt32 metadata.ImageWidth
    let height := toInt32 metadata.ImageHeight
    (arg (arg "%1 x %2".toList (numberInt width)) (numberInt height), effects)

/-- `FileManager::getFStop`. -/
def getFStop (w : World) (fileUrl : QString) : QString × List Effect :=
  if fileUrl = [] then ([], [])
  else
    let (metadata, effects) := getPictureMetaData w fileUrl
    let fNumber := metadata.FNumber
    (arg "f/%1".toList (w.numberFloat fNumber), effects)

/-- `FileManager::getExposure`.  The result is `none` when the conversion of
the quotient to `unsigned int` has undefined behaviour. -/
def getExposure (w : World) (fileUrl : QString) : Option QString × List Effect :=
  if fileUrl = [] then (some [], [])
  else
    let (metadata, effects) := getPictureMetaData w fileUrl
    match toUnsignedInt (fdiv (Double.ofNat 1) metadata.ExposureTime) with
    | none => (none, effects)
    | some exposure => (some (arg "1/%1 s".toList (number exposure)), effects)

/-- `FileManager::getISOSpeed`. -/
def getISOSpeed (w : World) (fileUrl : QString) : QString × List Effect :=
  if fileUrl = [] then ([], [])
  else
    let (metadata, effects) := getPictureMetaData w fileUrl
    let iso : Int := metadata.ISOSpeedRatings
    (arg "ISO: %1".toList (numberInt iso), effects)

/-- `FileManager::getExposureBias`. -/
def getExposureBias (w : World) (fileUrl : QString) : QString × List Effect :=
  if fileUrl = [] then ([], [])
  else
    let (metadata, effects) := getPictureMetaData w fileUrl
    let exposureBias := metadata.ExposureBiasValue
    (arg "%1 EV".toList (w.numberFloat exposureBias), effects)

/-- `FileManager::focalLengthStandard`. -/
def focalLengthStandard (w : World) (fileUrl : QString) : QString × List Effect :=
  if fileUrl = [] then ([], [])
  else
    let (metadata, effects) := getPictureMetaData w fileUrl
    let focalLength := metadata.FocalLengthIn35mm
    (arg "35mm focal length: %1 mm".toList (number focalLength), effects)

/-- `FileManager::focalLength`. -/
def focalLength (w : World) (fileUrl : QString) : QString × List Effect :=
  if fileUrl = [] then ([], [])
  else
    let (metadata, effects) := getPictureMetaData w fileUrl
    let focalLength := metadata.FocalLength
    (arg "%1 mm".toList (w.numberFloat focalLength), effects)

/-- `FileManager::getFlash`: the flash code compared with the character `1`. -/
def getFlash (w : World) (fileUrl : QString) : Bool × List Effect :=
  if fileUrl = [] then (false, [])
  else
    let (metadata, effects) := getPictureMetaData w fileUrl
    (metadata.Flash == '1'.toNat, effects)

/-! ## Video metadata -/

/-- `FileManager::runMkvInfo`: the standard output of `mkvinfo` on the path,
the empty string when the process did not finish. -/
def runMkvInfo (w : World) (fileUrl : QString) : QString × List Effect :=
  let path := fileUrl
  let colonIndex := indexOf path ':'
  let path := if colonIndex ≠ -1 then remove path 0 (colonIndex + 1).toNat else path
  match w.mkvinfo path with
  | none => ([], [.mkvinfo path])
  | some output => (output, [.mkvinfo path])

/-- The loop of `getVideoDate` over the report lines: the first line that
contains `Date` decides the result. -/
def videoDateLoop (w : World) : List QString → QString
  | [] => "Date not found.".toList
  | line :: rest =>
    if contains line "Date".toList then
      let dateLine := trimmed line
      let dateTimeStr := trimmed (section_ dateLine ':' 1)
      match w.videoDate dateTimeStr with
      | some formatted => formatted
      | none => "Date not found.".toList
    else videoDateLoop w rest

/-- `FileManager::getVideoDate`. -/
def getVideoDate (w : World) (fileUrl : QString) : QString × List Effect :=
  let (output, effects) := runMkvInfo w fileUrl
  (videoDateLoop w (split '\n' output), effects)

/-- The loop of `getVideoDimensions` over the report lines, from the current
`width` and `height`: every matching line overwrites its variable. -/
def videoDimensionsLoop : List QString → QString × QString → QString × QString
  | [], wh => wh
  | line :: rest, (width, height) =>
    if contains line "Pixel width".toList then
      videoDimensionsLoop rest (trimmed (last (split ':' line)), height)
    else if contains line "Pixel height".toList then
      videoDimensionsLoop rest (width, trimmed (last (split ':' line)))
    else videoDimensionsLoop rest (width, height)

/-- The end of `getVideoDimensions`: the answer from the final `width` and
`height`. -/
def videoDimensionsResult (width height : QString) : QString :=
  if ¬ width.isEmpty ∧ ¬ height.isEmpty then
    arg (arg "%1x%2".toList width) height
  else "Dimensions not found.".toList

/-- `FileManager::getVideoDimensions`. -/
def getVideoDimensions (w : World) (fileUrl : QString) : QString × List Effect :=
  let (output, effects) := runMkvInfo w fileUrl
  let (width, height) := videoDimensionsLoop (split '\n' output) ([], [])
  (videoDimensionsResult width height, effects)

/-- The loop of `getDuration` over the report lines. -/
def durationLoop : List QString → QString
  | [] => "Duration not found.".toList
  | line :: rest =>
    if contains line "Duration".toList then "Duration: ".toList ++ trimmed line
    else durationLoop rest

/-- `FileManager::getDuration`. -/
def getDuration (w : World) (fileUrl : QString) : QString × List Effect :=
  let (output, effects) := runMkvInfo w fileUrl
  (durationLoop (split '\n' output), effects)

/-- The loop of `getMultiplexingApplication` over the report lines. -/
def multiplexingApplicationLoop : List QString → QString
  | [] => "Multiplexing Application: Not found".toList
  | line :: rest =>
    if contains line "Multiplexing application:".toList then
      let multiplexingApplication := trimmed (last (split ':' line))
      arg "%1".toList multiplexingApplication
    else multiplexingApplicationLoop rest

/-- `FileManager::getMultiplexingApplication`. -/
def getMultiplexingApplication (w : World) (fileUrl : QString) : QString × List Effect :=
  let (output, effects) := runMkvInfo w fileUrl
  (multiplexingApplicationLoop (split '\n' output), effects)

/-- The loop of `getWritingApplication` over the report lines. -/
def writingApplicationLoop : List QString → QString
  | [] => []
  | line :: rest =>
    if contains line "Writing application".toList then trimmed line
    else writingApplicationLoop rest

/-- `FileManager::getWritingApplication`. -/
def getWritingApplication (w : World) (fileUrl : QString) : QString × List Effect :=
  let (output, effects) := runMkvInfo w fileUrl
  (writingApplicationLoop (split '\n' output), effects)

/-- The loop of `getDocumentType` over the report lines. -/
def documentTypeLoop : List QString → QString
  | [] => "File Type: Not found".toList
  | line :: rest =>
    if contains line "Document type:".toList then
      let documentType := trimmed (last (split ':' line))
      arg "File Type: %1".toList documentType
    else documentTypeLoop rest

/-- `FileManager::getDocumentType`. -/
def getDocumentType (w : World) (fileUrl : QString) : QString × List Effect :=
  let (output, effects) := runMkvInfo w fileUrl
  (documentTypeLoop (split '\n' output), effects)

/-- The loop of `getCodecId` over the report lines. -/
def codecIdLoop : List QString → QString
  | [] => "Codec ID: Not found".toList
  | line :: rest =>
    if contains line "Codec ID:".toList then
      let codecId := trimmed (last (split ':' line))
      arg "Codec ID: %1".toList codecId
    else codecIdLoop rest

/-- `FileManager::getCodecId`. -/
def getCodecId (w : World) (fileUrl : QString) : QString × List Effect :=
  let (output, effects) := runMkvInfo w fileUrl
  (codecIdLoop (split '\n' output), effects)

/-! ## Worlds and reports used as concrete inputs -/

/-- An empty decoded record: every field at its default. -/
def emptyRecord : EXIFInfo :=
  { DateTime := [], Make := [], Model := [], ImageWidth := 0, ImageHeight := 0,
    FNumber := Double.ofNat 0, ExposureTime := Double.ofNat 0, ISOSpeedRatings := 0,
    ExposureBiasValue := Double.ofNat 0, FocalLengthIn35mm := 0,
    FocalLength := Double.ofNat 0, Flash := 0 }

/-- A world in which `mkvinfo` prints `report` for every path, every file
exists and is empty, and the decoder yields `record`. -/
def worldWith (report : QString) (record : EXIFInfo) : World :=
  { fileExists := fun _ => true
    fileRemove := fun _ => true
    fileOpen := fun _ => true
    fileContent := fun _ => []
    parseFrom := fun _ => (record, 0)
    mkvinfo := fun _ => some report
    exifDate := fun _ => none
    videoDate := fun _ => none
    numberFloat := fun _ => [] }

/-- The empty record with a given exposure time. -/
def recordWithExposure (t : Double) : EXIFInfo :=
  { emptyRecord with ExposureTime := t }

/-- A world that tells paths apart: only `/home/u/a.jpg` exists and can be
removed or opened, a file reads as the characters of its path, the decoder
reports the number of bytes as image width, and `mkvinfo` prints the path it
was given. -/
def pathWorld : World :=
  { fileExists := fun p => p == "/home/u/a.jpg".toList
    fileRemove := fun p => p == "/home/u/a.jpg".toList
    fileOpen := fun p => p == "/home/u/a.jpg".toList
    fileContent := fun p => p.map Char.toNat
    parseFrom := fun bytes => ({ emptyRecord with ImageWidth := bytes.length }, 0)
    mkvinfo := fun p => some p
    exifDate := fun _ => none
    videoDate := fun _ => none
    numberFloat := fun _ => [] }

/-- The file locator convention in the words of the specification: the
locator with everything up to and including its first colon removed, and the
locator itself when it has no colon. -/
def stripScheme (locator : QString) : QString :=
  if ':' ∈ locator then (locator.dropWhile (fun c => c != ':')).drop 1 else locator

/-- The labels the video accessors search the report lines for. -/
def searchedLabels : List QString :=
  ["Date".toList, "Pixel width".toList, "Pixel height".toList, "Duration".toList,
   "Multiplexing application:".toList, "Writing application".toList,
   "Document type:".toList, "Codec ID:".toList]

/-! ## Lemmas on the Qt primitives -/

theorem arg_codecId (a : QString) :
    arg "Codec ID: %1".toList a = "Codec ID: ".toList ++ a := by
  simp [arg, argPieces, argScan, digitValue, minMarker, replacePieces]

theorem arg_dimensions_width (a : QString) :
    arg "%1x%2".toList a = a ++ "x%2".toList := by
  simp [arg, argPieces, argScan, digitValue, minMarker, replacePieces]

theorem argScan_text_of_no_percent (s r : QString) (h : '%' ∉ s) :
    argScan .text (s ++ r) = s.map ArgPiece.lit ++ argScan .text r := by
  induction s with
  | nil => rfl
  | cons c cs ih =>
    have hc : ¬ c = '%' := fun e => h (e ▸ List.mem_cons_self _ _)
    have hcs : '%' ∉ cs := fun e => h (List.mem_cons_of_mem _ e)
    simp [argScan, hc, ih hcs]

theorem minMarker_map_lit (s : QString) (ps : List ArgPiece) :
    minMarker (s.map ArgPiece.lit ++ ps) = minMarker ps := by
  induction s with
  | nil => rfl
  | cons c cs ih => simpa [minMarker] using ih

theorem replacePieces_map_lit (m : Nat) (a s : QString) (ps : List ArgPiece) :
    replacePieces m a (s.map ArgPiece.lit ++ ps) = s ++ replacePieces m a ps := by
  induction s with
  | nil => rfl
  | cons c cs ih => simpa [replacePieces] using ih

/-- The second substitution of `getVideoDimensions` on a width free of
percent signs. -/
theorem arg_dimensions_height (width height : QString) (h : '%' ∉ width) :
    arg (width ++ "x%2".toList) height = width ++ 'x' :: height := by
  have hp : argPieces (width ++ "x%2".toList) =
      width.map ArgPiece.lit ++ [.lit 'x', .marker 2 "%2".toList] := by
    rw [argPieces, argScan_text_of_no_percent _ _ h]
    simp [argScan, digitValue]
  simp only [arg, hp, minMarker_map_lit, replacePieces_map_lit]
  simp [minMarker, replacePieces]

/-- The letter `x` is never part of a place marker: it stays a literal piece. -/
theorem lit_x_mem_argScan (st : ArgScan) (s r : QString) :
    ArgPiece.lit 'x' ∈ argScan st (s ++ 'x' :: r) := by
  induction s generalizing st with
  | nil =>
    cases st <;> simp [argScan, digitValue]
  | cons c cs ih =>
    have h1 := ih .text
    have h2 := ih .percent
    have h3 := ih .percentL
    have h4 := fun txt v => ih (.digit txt v)
    cases st <;> simp only [List.cons_append, argScan] <;> repeat' split
    all_goals first
      | exact h1
      | exact h2
      | exact h3
      | exact h4 _ _
      | exact List.mem_cons_of_mem _ h1
      | exact List.mem_cons_of_mem _ h2
      | exact List.mem_cons_of_mem _ (List.mem_cons_of_mem _ h1)
      | exact List.mem_cons_of_mem _ (List.mem_cons_of_mem _ h2)
      | exact List.mem_cons_of_mem _ (List.mem_cons_of_mem _ (List.mem_cons_of_mem _ h1))

theorem mem_replacePieces_of_lit (m : Nat) (a : QString) (c : Char) (ps : List ArgPiece)
    (h : ArgPiece.lit c ∈ ps) : c ∈ replacePieces m a ps := by
  induction ps with
  | nil => exact absurd h (List.not_mem_nil _)
  | cons p rest ih =>
    rcases List.mem_cons.mp h with e | e
    · subst e
      simp [replacePieces]
    · cases p with
      | lit d => simp [replacePieces, ih e]
      | marker n text => simp [replacePieces, ih e]

theorem x_mem_arg (s r a : QString) : 'x' ∈ arg (s ++ 'x' :: r) a := by
  unfold arg
  split
  · simp
  · exact mem_replacePieces_of_lit _ _ _ _ (lit_x_mem_argScan .text s r)

theorem split_ne_nil (sep : Char) (s : QString) : split sep s ≠ [] := by
  induction s with
  | nil => simp [split]
  | cons c cs ih =>
    unfold split
    split
    · simp
    · split <;> simp

theorem split_of_not_mem (sep : Char) (s : QString) (h : sep ∉ s) :
    split sep s = [s] := by
  induction s with
  | nil => rfl
  | cons c cs ih =>
    have hc : ¬ c = sep := fun e => h (e ▸ List.mem_cons_self _ _)
    have hcs : sep ∉ cs := fun e => h (List.mem_cons_of_mem _ e)
    simp [split, hc, ih hcs]

theorem split_append_sep (sep : Char) (a v : QString) :
    split sep (a ++ sep :: v) = split sep a ++ split sep v := by
  induction a with
  | nil => simp [split]
  | cons c cs ih =>
    by_cases hc : c = sep
    · simp [split, hc, ih]
    · have hne := split_ne_nil sep cs
      cases hs : split sep cs with
      | nil => exact absurd hs hne
      | cons field fields => simp [split, hc, ih, hs]

theorem last_append (l1 l2 : List QString) (h : l2 ≠ []) :
    last (l1 ++ l2) = last l2 := by
  unfold last
  rw [List.getLastD_eq_getLast?, List.getLastD_eq_getLast?, List.getLast?_append_of_ne_nil _ h]

/-- The last field of a line is what follows its last colon. -/
theorem last_split_after_last_colon (label value : QString) (h : ':' ∉ value) :
    last (split ':' (label ++ ':' :: value)) = value := by
  rw [split_append_sep, last_append _ _ (split_ne_nil _ _), split_of_not_mem _ _ h]
  rfl

theorem indexOfFrom_of_not_mem (ch : Char) (s : QString) (i : Nat) (h : ch ∉ s) :
    indexOfFrom ch s i = -1 := by
  induction s generalizing i with
  | nil => rfl
  | cons c cs ih =>
    have hc : ¬ c = ch := fun e => h (e ▸ List.mem_cons_self _ _)
    have hcs : ch ∉ cs := fun e => h (List.mem_cons_of_mem _ e)
    simp [indexOfFrom, hc, ih (i + 1) hcs]

theorem indexOfFrom_first (ch : Char) (pre rest : QString) (i : Nat) (h : ch ∉ pre) :
    indexOfFrom ch (pre ++ ch :: rest) i = ((i + pre.length : Nat) : Int) := by
  induction pre generalizing i with
  | nil => simp [indexOfFrom]
  | cons c cs ih =>
    have hc : ¬ c = ch := fun e => h (e ▸ List.mem_cons_self _ _)
    have hcs : ch ∉ cs := fun e => h (List.mem_cons_of_mem _ e)
    rw [List.cons_append, indexOfFrom, if_neg hc, ih (i + 1) hcs, List.length_cons]
    congr 1
    omega

theorem exists_first_split (ch : Char) (s : QString) (h : ch ∈ s) :
    ∃ pre rest, s = pre ++ ch :: rest ∧ ch ∉ pre := by
  induction s with
  | nil => exact absurd h (List.not_mem_nil _)
  | cons c cs ih =>
    by_cases hc : c = ch
    · exact ⟨[], cs, by simp [hc], List.not_mem_nil _⟩
    · have hcs : ch ∈ cs := by
        rcases List.mem_cons.mp h with e | e
        · exact absurd e.symm hc
        · exact e
      obtain ⟨pre, rest, hs, hpre⟩ := ih hcs
      refine ⟨c :: pre, rest, by simp [hs], ?_⟩
      intro hmem
      rcases List.mem_cons.mp hmem with e | e
      · exact hc e.symm
      · exact hpre e

theorem stripScheme_of_not_mem (locator : QString) (h : ':' ∉ locator) :
    stripScheme locator = locator := by
  simp [stripScheme, h]

theorem stripScheme_first (pre rest : QString) (h : ':' ∉ pre) :
    stripScheme (pre ++ ':' :: rest) = rest := by
  have hd : (pre ++ ':' :: rest).dropWhile (fun c => c != ':') = ':' :: rest := by
    induction pre with
    | nil => simp [List.dropWhile]
    | cons c cs ih =>
      have hc : ¬ c = ':' := fun e => h (e ▸ List.mem_cons_self _ _)
      have hcs : ':' ∉ cs := fun e => h (List.mem_cons_of_mem _ e)
      simp [List.dropWhile_cons, hc, ih hcs]
  simp [stripScheme, hd]

/-- The scheme stripping written out in `deleteImage`, `getPictureMetaData` and
`runMkvInfo` computes `stripScheme`. -/
theorem strip_code_eq (fileUrl : QString) :
    (if indexOf fileUrl ':' ≠ -1 then remove fileUrl 0 (indexOf fileUrl ':' + 1).toNat
      else fileUrl) = stripScheme fileUrl := by
  by_cases h : ':' ∈ fileUrl
  · obtain ⟨pre, rest, hs, hpre⟩ := exists_first_split ':' fileUrl h
    subst hs
    rw [stripScheme_first pre rest hpre]
    have hi : indexOf (pre ++ ':' :: rest) ':' = ((0 + pre.length : Nat) : Int) :=
      indexOfFrom_first ':' pre rest 0 hpre
    have hne : ¬ ((0 + pre.length : Nat) : Int) = -1 := by omega
    have hn : (((0 + pre.length : Nat) : Int) + 1).toNat = pre.length + 1 := by omega
    rw [hi, if_pos hne, hn]
    simp [remove]
  · have hi : indexOf fileUrl ':' = -1 := indexOfFrom_of_not_mem ':' fileUrl 0 h
    rw [hi, stripScheme_of_not_mem fileUrl h]
    simp

/-! ## Lemmas on the conversions -/

theorem getExposure_fst (w : World) (fileUrl : QString) (h : fileUrl ≠ []) :
    (getExposure w fileUrl).1 =
      (toUnsignedInt
        (fdiv (Double.ofNat 1) (getPictureMetaData w fileUrl).1.ExposureTime)).map
        (fun exposure => arg "1/%1 s".toList (number exposure)) := by
  simp only [getExposure, h, if_false]
  cases toUnsignedInt
    (fdiv (Double.ofNat 1) (getPictureMetaData w fileUrl).1.ExposureTime) <;> rfl

theorem getExposure_snd (w : World) (fileUrl : QString) (h : fileUrl ≠ []) :
    (getExposure w fileUrl).2 = (getPictureMetaData w fileUrl).2 := by
  simp only [getExposure, h, if_false]
  cases toUnsignedInt
    (fdiv (Double.ofNat 1) (getPictureMetaData w fileUrl).1.ExposureTime) <;> rfl

theorem getExposure_of_zero (w : World) (fileUrl : QString) (h : fileUrl ≠ [])
    (hzero : (getPictureMetaData w fileUrl).1.ExposureTime.mant = 0) :
    (getExposure w fileUrl).1 = none := by
  rw [getExposure_fst w fileUrl h]
  simp [fdiv, hzero, toUnsignedInt]

/-! ## Lemmas on the report loops -/

theorem videoDateLoop_none (w : World) (lines : List QString)
    (h : ∀ line ∈ lines, contains line "Date".toList = false) :
    videoDateLoop w lines = "Date not found.".toList := by
  induction lines with
  | nil => rfl
  | cons line rest ih =>
    have h1 := h line (List.mem_cons_self _ _)
    have h2 := ih (fun l hl => h l (List.mem_cons_of_mem _ hl))
    simp only [videoDateLoop, h1, h2]
    simp

theorem videoDimensionsLoop_none (lines : List QString) (wh : QString × QString)
    (hw : ∀ line ∈ lines, contains line "Pixel width".toList = false)
    (hh : ∀ line ∈ lines, contains line "Pixel height".toList = false) :
    videoDimensionsLoop lines wh = wh := by
  induction lines generalizing wh with
  | nil => rfl
  | cons line rest ih =>
    obtain ⟨width, height⟩ := wh
    have h1 := hw line (List.mem_cons_self _ _)
    have h2 := hh line (List.mem_cons_self _ _)
    simp only [videoDimensionsLoop, h1, h2]
    exact ih _ (fun l hl => hw l (List.mem_cons_of_mem _ hl))
      (fun l hl => hh l (List.mem_cons_of_mem _ hl))

theorem durationLoop_none (lines : List QString)
    (h : ∀ line ∈ lines, contains line "Duration".toList = false) :
    durationLoop lines = "Duration not found.".toList := by
  induction lines with
  | nil => rfl
  | cons line rest ih =>
    have h1 := h line (List.mem_cons_self _ _)
    have h2 := ih (fun l hl => h l (List.mem_cons_of_mem _ hl))
    simp only [durationLoop, h1, h2]
    simp

theorem durationLoop_first (pre : List QString) (line : QString) (post : List QString)
    (hpre : ∀ l ∈ pre, contains l "Duration".toList = false)
    (hline : contains line "Duration".toList = true) :
    durationLoop (pre ++ line :: post) = "Duration: ".toList ++ trimmed line := by
  induction pre with
  | nil => simp only [List.nil_append, durationLoop, hline]; simp
  | cons l rest ih =>
    have h1 := hpre l (List.mem_cons_self _ _)
    have h2 := ih (fun x hx => hpre x (List.mem_cons_of_mem _ hx))
    simp only [List.cons_append, durationLoop, h1, Bool.false_eq_true, if_false]
    exact h2

theorem multiplexingApplicationLoop_none (lines : List QString)
    (h : ∀ line ∈ lines, contains line "Multiplexing application:".toList = false) :
    multiplexingApplicationLoop lines = "Multiplexing Application: Not found".toList := by
  induction lines with
  | nil => rfl
  | cons line rest ih =>
    have h1 := h line (List.mem_cons_self _ _)
    have h2 := ih (fun l hl => h l (List.mem_cons_of_mem _ hl))
    simp only [multiplexingApplicationLoop, h1, h2]
    simp

theorem writingApplicationLoop_none (lines : List QString)
    (h : ∀ line ∈ lines, contains line "Writing application".toList = false) :
    writingApplicationLoop lines = [] := by
  induction lines with
  | nil => rfl
  | cons line rest ih =>
    have h1 := h line (List.mem_cons_self _ _)
    have h2 := ih (fun l hl => h l (List.mem_cons_of_mem _ hl))
    simp only [writingApplicationLoop, h1, h2]
    simp

theorem documentTypeLoop_none (lines : List QString)
    (h : ∀ line ∈ lines, contains line "Document type:".toList = false) :
    documentTypeLoop lines = "File Type: Not found".toList := by
  induction lines with
  | nil => rfl
  | cons line rest ih =>
    have h1 := h line (List.mem_cons_self _ _)
    have h2 := ih (fun l hl => h l (List.mem_cons_of_mem _ hl))
    simp only [documentTypeLoop, h1, h2]
    simp

theorem codecIdLoop_none (lines : List QString)
    (h : ∀ line ∈ lines, contains line "Codec ID:".toList = false) :
    codecIdLoop lines = "Codec ID: Not found".toList := by
  induction lines with
  | nil => rfl
  | cons line rest ih =>
    have h1 := h line (List.mem_cons_self _ _)
    have h2 := ih (fun l hl => h l (List.mem_cons_of_mem _ hl))
    simp only [codecIdLoop, h1, h2]
    simp

theorem codecIdLoop_first (pre : List QString) (line : QString) (post : List QString)
    (hpre : ∀ l ∈ pre, contains l "Codec ID:".toList = false)
    (hline : contains line "Codec ID:".toList = true) :
    codecIdLoop (pre ++ line :: post) =
      "Codec ID: ".toList ++ trimmed (last (split ':' line)) := by
  induction pre with
  | nil =>
    simp only [List.nil_append, codecIdLoop, hline, arg_codecId]
    simp
  | cons l rest ih =>
    have h1 := hpre l (List.mem_cons_self _ _)
    have h2 := ih (fun x hx => hpre x (List.mem_cons_of_mem _ hx))
    simp only [List.cons_append, codecIdLoop, h1, Bool.false_eq_true, if_false]
    exact h2

theorem videoDimensionsLoop_width_keep (post : List QString) (wh : QString × QString)
    (h : ∀ l ∈ post, contains l "Pixel width".toList = false) :
    (videoDimensionsLoop post wh).1 = wh.1 := by
  induction post generalizing wh with
  | nil => rfl
  | cons line rest ih =>
    obtain ⟨width, height⟩ := wh
    have h1 := h line (List.mem_cons_self _ _)
    have h2 := fun st => ih st (fun l hl => h l (List.mem_cons_of_mem _ hl))
    simp only [videoDimensionsLoop, h1, Bool.false_eq_true, if_false]
    split
    · exact h2 _
    · exact h2 _

theorem videoDimensionsLoop_height_keep (post : List QString) (wh : QString × QString)
    (h : ∀ l ∈ post, contains l "Pixel width".toList = true ∨
      contains l "Pixel height".toList = false) :
    (videoDimensionsLoop post wh).2 = wh.2 := by
  induction post generalizing wh with
  | nil => rfl
  | cons line rest ih =>
    obtain ⟨width, height⟩ := wh
    have h2 := fun st => ih st (fun l hl => h l (List.mem_cons_of_mem _ hl))
    rcases h line (List.mem_cons_self _ _) with h1 | h1
    · simp only [videoDimensionsLoop, h1, if_true]
      exact h2 _
    · simp only [videoDimensionsLoop, h1, Bool.false_eq_true, if_false]
      split
      · exact h2 _
      · exact h2 _

theorem videoDimensionsLoop_cons (line : QString) (rest : List QString)
    (wh : QString × QString) :
    ∃ wh2, videoDimensionsLoop (line :: rest) wh = videoDimensionsLoop rest wh2 := by
  obtain ⟨width, height⟩ := wh
  simp only [videoDimensionsLoop]
  split
  · exact ⟨_, rfl⟩
  · split
    · exact ⟨_, rfl⟩
    · exact ⟨_, rfl⟩

theorem videoDimensionsLoop_width_last (pre : List QString) (line : QString)
    (post : List QString) (wh : QString × QString)
    (hline : contains line "Pixel width".toList = true)
    (hpost : ∀ l ∈ post, contains l "Pixel width".toList = false) :
    (videoDimensionsLoop (pre ++ line :: post) wh).1 = trimmed (last (split ':' line)) := by
  induction pre generalizing wh with
  | nil =>
    obtain ⟨width, height⟩ := wh
    simp only [List.nil_append, videoDimensionsLoop, hline, if_true]
    exact videoDimensionsLoop_width_keep post _ hpost
  | cons l rest ih =>
    obtain ⟨wh2, h2⟩ := videoDimensionsLoop_cons l (rest ++ line :: post) wh
    rw [List.cons_append, h2]
    exact ih wh2

theorem videoDimensionsLoop_height_last (pre : List QString) (line : QString)
    (post : List QString) (wh : QString × QString)
    (hlineW : contains line "Pixel width".toList = false)
    (hlineH : contains line "Pixel height".toList = true)
    (hpost : ∀ l ∈ post, contains l "Pixel width".toList = true ∨
      contains l "Pixel height".toList = false) :
    (videoDimensionsLoop (pre ++ line :: post) wh).2 = trimmed (last (split ':' line)) := by
  induction pre generalizing wh with
  | nil =>
    obtain ⟨width, height⟩ := wh
    simp only [List.nil_append, videoDimensionsLoop, hlineW, hlineH, Bool.false_eq_true,
      if_false, if_true]
    exact videoDimensionsLoop_height_keep post _ hpost
  | cons l rest ih =>
    obtain ⟨wh2, h2⟩ := videoDimensionsLoop_cons l (rest ++ line :: post) wh
    rw [List.cons_append, h2]
    exact ih wh2

theorem getVideoDimensions_fst (w : World) (fileUrl : QString) :
    (getVideoDimensions w fileUrl).1 =
      videoDimensionsResult
        (videoDimensionsLoop (split '\n' (runMkvInfo w fileUrl).1) ([], [])).1
        (videoDimensionsLoop (split '\n' (runMkvInfo w fileUrl).1) ([], [])).2 := rfl

theorem videoDimensionsResult_of_empty (width height : QString)
    (h : width = [] ∨ height = []) :
    videoDimensionsResult width height = "Dimensions not found.".toList := by
  rcases h with h | h <;> simp [videoDimensionsResult, h]

theorem videoDimensionsResult_ne_default (width height : QString)
    (hw : width ≠ []) (hh : height ≠ []) :
    videoDimensionsResult width height ≠ "Dimensions not found.".toList := by
  have hx : 'x' ∈ videoDimensionsResult width height := by
    simp only [videoDimensionsResult, List.isEmpty_iff, hw, hh, not_false_eq_true, and_self,
      if_true, arg_dimensions_width]
    exact x_mem_arg width "%2".toList height
  intro e
  rw [e] at hx
  revert hx
  decide

theorem videoDimensionsResult_of_no_percent (width height : QString)
    (hw : width ≠ []) (hh : height ≠ []) (hp : '%' ∉ width) :
    videoDimensionsResult width height = width ++ 'x' :: height := by
  simp only [videoDimensionsResult, List.isEmpty_iff, hw, hh, not_false_eq_true, and_self,
    if_true, arg_dimensions_width]
  exact arg_dimensions_height width height hp

/-! ## Default strings -/

/-- C1. When no line of the report contains any of the searched labels (the
empty report included), every video accessor returns its documented default:
`Date not found.`, `Dimensions not found.`, `Duration not found.`,
`Multiplexing Application: Not found`, the empty string, `File Type: Not found`
and `Codec ID: Not found`. -/
theorem video_accessors_default (w : World) (fileUrl : QString)
    (h : ∀ line ∈ split '\n' (runMkvInfo w fileUrl).1,
      ∀ label ∈ searchedLabels, contains line label = false) :
    (getVideoDate w fileUrl).1 = "Date not found.".toList ∧
    (getVideoDimensions w fileUrl).1 = "Dimensions not found.".toList ∧
    (getDuration w fileUrl).1 = "Duration not found.".toList ∧
    (getMultiplexingApplication w fileUrl).1 =
      "Multiplexing Application: Not found".toList ∧
    (getWritingApplication w fileUrl).1 = [] ∧
    (getDocumentType w fileUrl).1 = "File Type: Not found".toList ∧
    (getCodecId w fileUrl).1 = "Codec ID: Not found".toList := by
  have hl : ∀ label ∈ searchedLabels,
      ∀ line ∈ split '\n' (runMkvInfo w fileUrl).1, contains line label = false :=
    fun label hlabel line hline => h line hline label hlabel
  refine ⟨?_, ?_, ?_, ?_, ?_, ?_, ?_⟩
  · exact videoDateLoop_none w _ (hl _ (by simp [searchedLabels]))
  · show videoDimensionsResult
        (videoDimensionsLoop (split '\n' (runMkvInfo w fileUrl).1) ([], [])).1
        (videoDimensionsLoop (split '\n' (runMkvInfo w fileUrl).1) ([], [])).2 = _
    rw [videoDimensionsLoop_none _ _ (hl _ (by simp [searchedLabels]))
      (hl _ (by simp [searchedLabels]))]
    rfl
  · exact durationLoop_none _ (hl _ (by simp [searchedLabels]))
  · exact multiplexingApplicationLoop_none _ (hl _ (by simp [searchedLabels]))
  · exact writingApplicationLoop_none _ (hl _ (by simp [searchedLabels]))
  · exact documentTypeLoop_none _ (hl _ (by simp [searchedLabels]))
  · exact codecIdLoop_none _ (hl _ (by simp [searchedLabels]))

/-- Witness of C1: the empty report. -/
theorem video_accessors_default_witness :
    (getVideoDate (worldWith [] emptyRecord) "file:/a.mkv".toList).1 =
      "Date not found.".toList ∧
    (getVideoDimensions (worldWith [] emptyRecord) "file:/a.mkv".toList).1 =
      "Dimensions not found.".toList ∧
    (getDuration (worldWith [] emptyRecord) "file:/a.mkv".toList).1 =
      "Duration not found.".toList ∧
    (getMultiplexingApplication (worldWith [] emptyRecord) "file:/a.mkv".toList).1 =
      "Multiplexing Application: Not found".toList ∧
    (getWritingApplication (worldWith [] emptyRecord) "file:/a.mkv".toList).1 = [] ∧
    (getDocumentType (worldWith [] emptyRecord) "file:/a.mkv".toList).1 =
      "File Type: Not found".toList ∧
    (getCodecId (worldWith [] emptyRecord) "file:/a.mkv".toList).1 =
      "Codec ID: Not found".toList :=
  video_accessors_default (worldWith [] emptyRecord) "file:/a.mkv".toList (by decide)

/-! ## First match -/

/-- C2. When the report has a line containing `Codec ID:` and no earlier line
contains it, `getCodecId` returns `Codec ID: ` followed by the value of that
line, whatever lines follow it (other `Codec ID:` lines included).  The value
is the trimmed last colon-separated field of the line: with the line read as
`label:value`, the value free of colons, it is the trimmed `value`. -/
theorem getCodecId_first_match (w : World) (fileUrl : QString)
    (pre : List QString) (line : QString) (post : List QString)
    (hlines : split '\n' (runMkvInfo w fileUrl).1 = pre ++ line :: post)
    (hpre : ∀ l ∈ pre, contains l "Codec ID:".toList = false)
    (hline : contains line "Codec ID:".toList = true) :
    (getCodecId w fileUrl).1 = "Codec ID: ".toList ++ trimmed (last (split ':' line)) ∧
    ∀ label value : QString, line = label ++ ':' :: value → ':' ∉ value →
      (getCodecId w fileUrl).1 = "Codec ID: ".toList ++ trimmed value := by
  have h1 : (getCodecId w fileUrl).1 =
      "Codec ID: ".toList ++ trimmed (last (split ':' line)) := by
    show codecIdLoop (split '\n' (runMkvInfo w fileUrl).1) = _
    rw [hlines]
    exact codecIdLoop_first pre line post hpre hline
  refine ⟨h1, ?_⟩
  intro label value hval hcolon
  rw [h1, hval, last_split_after_last_colon label value hcolon]

/-- Witness of C2: two tracks with different codecs. -/
theorem getCodecId_first_match_witness :
    (getCodecId
      (worldWith "| + Track\n|  + Codec ID: V_MPEG4/ISO/AVC\n|  + Codec ID: A_AAC".toList
        emptyRecord) "file:/a.mkv".toList).1 = "Codec ID: V_MPEG4/ISO/AVC".toList :=
  (getCodecId_first_match
    (worldWith "| + Track\n|  + Codec ID: V_MPEG4/ISO/AVC\n|  + Codec ID: A_AAC".toList
      emptyRecord) "file:/a.mkv".toList
    ["| + Track".toList] "|  + Codec ID: V_MPEG4/ISO/AVC".toList
    ["|  + Codec ID: A_AAC".toList] (by decide) (by decide) (by decide)).2
    "|  + Codec ID".toList " V_MPEG4/ISO/AVC".toList (by decide) (by decide)

/-! ## Duration -/

/-- C6. `getDuration` returns `Duration: ` followed by the whole trimmed first
line that contains `Duration` when there is one (whatever lines follow), and
`Duration not found.` when no line contains `Duration`. -/
theorem getDuration_spec (w : World) (fileUrl : QString) :
    (∀ (pre : List QString) (line : QString) (post : List QString),
      split '\n' (runMkvInfo w fileUrl).1 = pre ++ line :: post →
      (∀ l ∈ pre, contains l "Duration".toList = false) →
      contains line "Duration".toList = true →
      (getDuration w fileUrl).1 = "Duration: ".toList ++ trimmed line) ∧
    ((∀ l ∈ split '\n' (runMkvInfo w fileUrl).1, contains l "Duration".toList = false) →
      (getDuration w fileUrl).1 = "Duration not found.".toList) := by
  constructor
  · intro pre line post hlines hpre hline
    show durationLoop (split '\n' (runMkvInfo w fileUrl).1) = _
    rw [hlines]
    exact durationLoop_first pre line post hpre hline
  · intro h
    exact durationLoop_none _ h

/-- Witness of C6: a report with a duration line, and the empty report. -/
theorem getDuration_spec_witness :
    (getDuration (worldWith "| + Segment\n| + Duration: 00:00:05.5 \nx".toList emptyRecord)
      "file:/a.mkv".toList).1 = "Duration: | + Duration: 00:00:05.5".toList ∧
    (getDuration (worldWith [] emptyRecord) "file:/a.mkv".toList).1 =
      "Duration not found.".toList :=
  ⟨(getDuration_spec
      (worldWith "| + Segment\n| + Duration: 00:00:05.5 \nx".toList emptyRecord)
      "file:/a.mkv".toList).1
      ["| + Segment".toList] "| + Duration: 00:00:05.5 ".toList ["x".toList]
      (by decide) (by decide) (by decide),
   (getDuration_spec (worldWith [] emptyRecord) "file:/a.mkv".toList).2 (by decide)⟩

/-! ## File locators -/

/-- C7. `deleteImage`, `getPictureMetaData` and `runMkvInfo` hand the file
system and `mkvinfo` the locator with everything up to and including its first
colon removed, and nothing else: each is the function of the answers of the
world at that path, and every call in its log carries that path.  A locator
without colon is passed unchanged, and of several colons only the first is
consumed. -/
theorem stripped_path_handed_over (w : World) (fileUrl : QString) :
    deleteImage w fileUrl =
      (if w.fileExists (stripScheme fileUrl) then
        (w.fileRemove (stripScheme fileUrl),
          [.fileExists (stripScheme fileUrl), .fileRemove (stripScheme fileUrl)])
      else (false, [.fileExists (stripScheme fileUrl)])) ∧
    getPictureMetaData w fileUrl =
      ((w.parseFrom
          (if w.fileOpen (stripScheme fileUrl) then w.fileContent (stripScheme fileUrl)
            else [])).1,
        [.fileOpen (stripScheme fileUrl), .fileReadAll (stripScheme fileUrl),
          .exifParse
            (if w.fileOpen (stripScheme fileUrl) then w.fileContent (stripScheme fileUrl)
              else [])]) ∧
    runMkvInfo w fileUrl =
      ((w.mkvinfo (stripScheme fileUrl)).getD [], [.mkvinfo (stripScheme fileUrl)]) ∧
    (':' ∉ fileUrl → stripScheme fileUrl = fileUrl) ∧
    (∀ pre rest : QString, ':' ∉ pre → fileUrl = pre ++ ':' :: rest →
      stripScheme fileUrl = rest) := by
  have hs := strip_code_eq fileUrl
  refine ⟨?_, ?_, ?_, stripScheme_of_not_mem fileUrl, ?_⟩
  · simp only [deleteImage, hs]
  · simp only [getPictureMetaData, getCurrentLocation, hs, List.nil_append]
  · simp only [runMkvInfo, hs]
    cases w.mkvinfo (stripScheme fileUrl) <;> rfl
  · intro pre rest hpre hurl
    rw [hurl]
    exact stripScheme_first pre rest hpre

/-- Witness of C7, in a world that tells paths apart: a locator with a scheme,
a locator with a scheme and a second colon in the file name, and a locator
without colon. -/
theorem stripped_path_handed_over_witness :
    deleteImage pathWorld "file:/home/u/a.jpg".toList =
      (true, [.fileExists "/home/u/a.jpg".toList, .fileRemove "/home/u/a.jpg".toList]) ∧
    runMkvInfo pathWorld "file:///home/u/a:b.mkv".toList =
      ("///home/u/a:b.mkv".toList, [.mkvinfo "///home/u/a:b.mkv".toList]) ∧
    runMkvInfo pathWorld "/home/u/a.mkv".toList =
      ("/home/u/a.mkv".toList, [.mkvinfo "/home/u/a.mkv".toList]) :=
  ⟨(stripped_path_handed_over pathWorld "file:/home/u/a.jpg".toList).1.trans (by decide),
   (stripped_path_handed_over pathWorld "file:///home/u/a:b.mkv".toList).2.2.1.trans
     (by decide),
   (stripped_path_handed_over pathWorld "/home/u/a.mkv".toList).2.2.1.trans (by decide)⟩

/-! ## Empty locator -/

/-- C8. With the empty locator every image accessor returns the empty result
(the empty string, `false` for `getFlash`) and makes no external call: no file
is opened or read and nothing is parsed, whereas `getPictureMetaData` always
opens, reads and parses. -/
theorem image_accessors_empty_locator (w : World) :
    getPictureDate w [] = ([], []) ∧
    getCameraHardware w [] = ([], []) ∧
    getDimensions w [] = ([], []) ∧
    getFStop w [] = ([], []) ∧
    getExposure w [] = (some [], []) ∧
    getISOSpeed w [] = ([], []) ∧
    getExposureBias w [] = ([], []) ∧
    focalLengthStandard w [] = ([], []) ∧
    focalLength w [] = ([], []) ∧
    getFlash w [] = (false, []) ∧
    ∀ fileUrl : QString, (getPictureMetaData w fileUrl).2 ≠ [] := by
  refine ⟨rfl, rfl, rfl, rfl, rfl, rfl, rfl, rfl, rfl, rfl, ?_⟩
  intro fileUrl
  simp [getPictureMetaData]

/-! ## Video dimensions -/

/-- C3, the code at a failing input: in a report with two tracks the first
`Pixel width` line has value 1 and the first `Pixel height` line value 2, yet
`getVideoDimensions` answers with the values 3 and 4 of the later lines. -/
theorem getVideoDimensions_not_first_match :
    split '\n' "Pixel width: 1\nPixel height: 2\nPixel width: 3\nPixel height: 4".toList =
      ["Pixel width: 1".toList, "Pixel height: 2".toList, "Pixel width: 3".toList,
        "Pixel height: 4".toList] ∧
    (getVideoDimensions
      (worldWith "Pixel width: 1\nPixel height: 2\nPixel width: 3\nPixel height: 4".toList
        emptyRecord) "file:/a.mkv".toList).1 = "3x4".toList ∧
    (getVideoDimensions
      (worldWith "Pixel width: 1\nPixel height: 2\nPixel width: 3\nPixel height: 4".toList
        emptyRecord) "file:/a.mkv".toList).1 ≠ "1x2".toList := by
  decide

/-- C5, the claim refuted.  A report with a `Pixel width` line and a
`Pixel height` line still yields `Dimensions not found.` when the width line
has nothing after its colon; and a width that holds a place marker, here
`%1f`, is not copied in front of the `x`: the height is substituted into
it. -/
theorem getVideoDimensions_not_width_x_height :
    contains "Pixel width:".toList "Pixel width".toList = true ∧
    contains "Pixel height: 1080".toList "Pixel height".toList = true ∧
    (getVideoDimensions (worldWith "Pixel width:\nPixel height: 1080".toList emptyRecord)
      "file:/a.mkv".toList).1 = "Dimensions not found.".toList ∧
    trimmed (last (split ':' "Pixel width: %1f".toList)) = "%1f".toList ∧
    (getVideoDimensions
      (worldWith "Pixel width: %1f\nPixel height: 1080".toList emptyRecord)
      "file:/a.mkv".toList).1 = "1080fx%2".toList := by
  decide

/-- C5, amended.  `getVideoDimensions` returns `Dimensions not found.` when no
line contains `Pixel width` and when no line contains `Pixel height`.  In a
report where exactly one line contains `Pixel width` and exactly one other
line contains `Pixel height`, each of them a label, one colon and a value, it
returns `Dimensions not found.` if and only if the trimmed value of one of the
two lines is empty; otherwise, when the width has no percent sign, it returns
the trimmed width, `x` and the trimmed height without spaces.  The report made
of the lines `Pixel width: 1920` and `Pixel height: 1080` yields
`1920x1080`. -/
theorem getVideoDimensions_spec (w : World) (fileUrl : QString) :
    ((∀ l ∈ split '\n' (runMkvInfo w fileUrl).1,
        contains l "Pixel width".toList = false) →
      (getVideoDimensions w fileUrl).1 = "Dimensions not found.".toList) ∧
    ((∀ l ∈ split '\n' (runMkvInfo w fileUrl).1,
        contains l "Pixel height".toList = false) →
      (getVideoDimensions w fileUrl).1 = "Dimensions not found.".toList) ∧
    (∀ (preW : List QString) (labelW valueW : QString) (postW : List QString)
      (preH : List QString) (labelH valueH : QString) (postH : List QString),
      split '\n' (runMkvInfo w fileUrl).1 = preW ++ (labelW ++ ':' :: valueW) :: postW →
      split '\n' (runMkvInfo w fileUrl).1 = preH ++ (labelH ++ ':' :: valueH) :: postH →
      contains (labelW ++ ':' :: valueW) "Pixel width".toList = true →
      contains (labelH ++ ':' :: valueH) "Pixel height".toList = true →
      contains (labelH ++ ':' :: valueH) "Pixel width".toList = false →
      (∀ l ∈ preW ++ postW, contains l "Pixel width".toList = false) →
      (∀ l ∈ preH ++ postH, contains l "Pixel height".toList = false) →
      ':' ∉ labelW → ':' ∉ valueW → ':' ∉ labelH → ':' ∉ valueH →
      ((getVideoDimensions w fileUrl).1 = "Dimensions not found.".toList ↔
        (trimmed valueW = [] ∨ trimmed valueH = [])) ∧
      (trimmed valueW ≠ [] → trimmed valueH ≠ [] → '%' ∉ trimmed valueW →
        (getVideoDimensions w fileUrl).1 = trimmed valueW ++ 'x' :: trimmed valueH)) ∧
    ((runMkvInfo w fileUrl).1 = "Pixel width: 1920\nPixel height: 1080".toList →
      (getVideoDimensions w fileUrl).1 = "1920x1080".toList) := by
  refine ⟨?_, ?_, ?_, ?_⟩
  · intro h
    rw [getVideoDimensions_fst, videoDimensionsLoop_width_keep _ _ h]
    exact videoDimensionsResult_of_empty _ _ (Or.inl rfl)
  · intro h
    rw [getVideoDimensions_fst,
      videoDimensionsLoop_height_keep _ _ (fun l hl => Or.inr (h l hl))]
    exact videoDimensionsResult_of_empty _ _ (Or.inr rfl)
  · intro preW labelW valueW postW preH labelH valueH postH hW hH hlineW hlineH hlineHW
      hothersW hothersH _ hvalueW _ hvalueH
    have hwidth : (videoDimensionsLoop (split '\n' (runMkvInfo w fileUrl).1) ([], [])).1 =
        trimmed valueW := by
      rw [hW, videoDimensionsLoop_width_last preW _ postW _ hlineW
        (fun l hl => hothersW l (List.mem_append_right _ hl)),
        last_split_after_last_colon labelW valueW hvalueW]
    have hheight : (videoDimensionsLoop (split '\n' (runMkvInfo w fileUrl).1) ([], [])).2 =
        trimmed valueH := by
      rw [hH, videoDimensionsLoop_height_last preH _ postH _ hlineHW hlineH
        (fun l hl => Or.inr (hothersH l (List.mem_append_right _ hl))),
        last_split_after_last_colon labelH valueH hvalueH]
    rw [getVideoDimensions_fst, hwidth, hheight]
    refine ⟨⟨?_, videoDimensionsResult_of_empty _ _⟩, ?_⟩
    · intro hdef
      by_contra hne
      push_neg at hne
      exact videoDimensionsResult_ne_default _ _ hne.1 hne.2 hdef
    · intro hw hh hp
      exact videoDimensionsResult_of_no_percent _ _ hw hh hp
  · intro hrep
    rw [getVideoDimensions_fst, hrep]
    decide

/-- Witness of C5 amended: the video report of the specification, as `mkvinfo`
prints it. -/
theorem getVideoDimensions_spec_witness :
    (getVideoDimensions
      (worldWith "|  + Pixel width: 1920\n|  + Pixel height: 1080".toList emptyRecord)
      "file:/a.mkv".toList).1 = "1920x1080".toList :=
  ((getVideoDimensions_spec
    (worldWith "|  + Pixel width: 1920\n|  + Pixel height: 1080".toList emptyRecord)
    "file:/a.mkv".toList).2.2.1
    [] "|  + Pixel width".toList " 1920".toList ["|  + Pixel height: 1080".toList]
    ["|  + Pixel width: 1920".toList] "|  + Pixel height".toList " 1080".toList []
    (by decide) (by decide) (by decide) (by decide) (by decide) (by decide) (by decide)
    (by decide) (by decide) (by decide) (by decide)).2
    (by decide) (by decide) (by decide)

/-! ## Field values -/

/-- C4, the code at a failing input.  On lines whose value holds a colon,
`getCodecId`, `getDocumentType` and `getMultiplexingApplication` return only
what follows the last colon (`b`, `d`, `f`), not the portion after the first
colon (`a:b`, `c:d`, `e:f`) that `section(':', 1)` of `getVideoDate` takes. -/
theorem label_accessors_cut_at_last_colon :
    (getCodecId
      (worldWith "Codec ID: a:b\nDocument type: c:d\nMultiplexing application: e:f".toList
        emptyRecord) "file:/a.mkv".toList).1 = "Codec ID: b".toList ∧
    (getDocumentType
      (worldWith "Codec ID: a:b\nDocument type: c:d\nMultiplexing application: e:f".toList
        emptyRecord) "file:/a.mkv".toList).1 = "File Type: d".toList ∧
    (getMultiplexingApplication
      (worldWith "Codec ID: a:b\nDocument type: c:d\nMultiplexing application: e:f".toList
        emptyRecord) "file:/a.mkv".toList).1 = "f".toList ∧
    trimmed (section_ "Codec ID: a:b".toList ':' 1) = "a:b".toList ∧
    trimmed (section_ "Document type: c:d".toList ':' 1) = "c:d".toList ∧
    trimmed (section_ "Multiplexing application: e:f".toList ':' 1) = "e:f".toList := by
  decide

/-! ## Exposure -/

/-- C9, the code at a failing input.  For a record without exposure time
(default 0) `getExposure` has no guard: it opens, reads and parses the file,
divides by the zero exposure time and converts the quotient, which is not a
finite number, to `unsigned int`; the result is undefined. -/
theorem getExposure_zero_undefined :
    getExposure (worldWith [] emptyRecord) "file:/a.jpg".toList =
      (none, [.fileOpen "/a.jpg".toList, .fileReadAll "/a.jpg".toList, .exifParse []]) := by
  have h1 : (getExposure (worldWith [] emptyRecord) "file:/a.jpg".toList).1 = none :=
    getExposure_of_zero _ _ (by decide) rfl
  have h2 : (getExposure (worldWith [] emptyRecord) "file:/a.jpg".toList).2 =
      [.fileOpen "/a.jpg".toList, .fileReadAll "/a.jpg".toList, .exifParse []] := by
    rw [getExposure_snd _ _ (by decide)]
    decide
  exact Prod.ext h1 h2

/-- C10, the code at failing inputs.  For the exposure time 5/8 the quotient
1.6 rounds to 2, and `getExposure` returns `1/1 s`.  For the exposure time that
the division of 1 by 93 yields, the reciprocal rounds to 93, and `getExposure`
returns `1/92 s`: the quotient is cut, not rounded. -/
theorem getExposure_not_rounded :
    Double.toRat ⟨false, 5, -3⟩ = 5 / 8 ∧
    round (1 / Double.toRat ⟨false, 5, -3⟩) = 2 ∧
    (getExposure (worldWith [] (recordWithExposure ⟨false, 5, -3⟩))
      "file:/a.jpg".toList).1 = some "1/1 s".toList ∧
    fdiv (Double.ofNat 1) (Double.ofNat 93) = some ⟨false, 6198502712940038, -59⟩ ∧
    round (1 / Double.toRat ⟨false, 6198502712940038, -59⟩) = 93 ∧
    (getExposure (worldWith [] (recordWithExposure ⟨false, 6198502712940038, -59⟩))
      "file:/a.jpg".toList).1 = some "1/92 s".toList := by
  refine ⟨?_, ?_, by decide, by decide, ?_, by decide⟩
  · simp only [Double.toRat]
    norm_num
  · rw [round_eq, Int.floor_eq_iff]
    simp only [Double.toRat]
    norm_num
  · rw [round_eq, Int.floor_eq_iff]
    simp only [Double.toRat]
    norm_num

end FileManager

